import Mathlib

/-!
Shallow embedding of `src/dns.rs` (doh-server DNS wire-format core).

Packets are `List Nat` (one element per byte; genuine packets have every
element below 256 — theorems that depend on byte-ness carry that bound as a
hypothesis).  Each fallible Rust function becomes a Lean function returning
`Res α`:
  * `Res.ok`    – the Rust `Ok` value;
  * `Res.err e` – the Rust `Err(&'static str)` value, with the string mapped
                  to the constructor of `DnsErr` listed below;
  * `Res.crash` – an abort of the process: an out-of-bounds slice index, an
                  arithmetic-overflow abort, or a failed `assert!`.
Mutating Rust functions (`&mut Vec<u8>` parameters) return the final buffer
alongside the `Res` outcome, because the caller keeps the buffer even when
the call fails.

`u16` arithmetic that can overflow (`ancount + nscount + arcount`) is
modelled with the release-profile wrapping semantics, i.e. `% 65536`.
-/

/-- Error kinds, one per `&'static str` in the source:
`"Short packet"`, `"Incomplete offset"`, `"Label too long"`,
`"Malformed packet with an out-of-bounds name"`, `"Name too long"`,
`"Unsupported number of questions"`, `"Large packet"`,
`"Garbage after packet"`, `"Record length would exceed packet length"`,
`"Too many additional records"`, `"Duplicate OPT RR found"`. -/
inductive DnsErr : Type where
  | shortPacket
  | incompleteOffset
  | labelTooLong
  | malformedName
  | nameTooLong
  | unsupportedQuestionCount
  | largePacket
  | trailingGarbage
  | recordOverflow
  | tooManyAdditionalRecords
  | duplicateOpt
deriving DecidableEq

/-- Outcome of running a fallible operation: normal value, returned error,
or process abort (out-of-bounds index / overflow / failed `assert!`). -/
inductive Res (α : Type) : Type where
  | crash : Res α
  | err : DnsErr → Res α
  | ok : α → Res α
deriving DecidableEq

/-- A 16-bit big-endian header read `(u16::from(packet[i]) << 8) |
u16::from(packet[i+1])`; models `qdcount`/`ancount`/`nscount`/`arcount`
(`i` = 4, 6, 8, 10).  Rust slice indexing aborts when out of bounds. -/
def hdr16 (p : List Nat) (i : Nat) : Res Nat :=
  match p[i]?, p[i+1]? with
  | some a, some b => .ok ((a <<< 8) ||| b)
  | _, _ => .crash

/-- Total (in-bounds only) view of the same 16-bit big-endian field; used in
theorem statements.  Agrees with `hdr16` whenever `i + 2 ≤ p.length`. -/
def val16 (p : List Nat) (i : Nat) : Nat :=
  ((p[i]?.getD 0) <<< 8) ||| (p[i+1]?.getD 0)

/-- `pub fn rcode(packet: &[u8]) -> u8 { packet[3] & 0x0f }` -/
def rcode (p : List Nat) : Res Nat :=
  match p[3]? with
  | some b => .ok (b &&& 0x0f)
  | none => .crash

/-- `is_recoverable_error`: rcode is SERVFAIL (2) or REFUSED (5). -/
def is_recoverable_error (p : List Nat) : Res Bool :=
  match rcode p with
  | .crash => .crash
  | .err e => .err e
  | .ok r => .ok (r == 2 || r == 5)

/-- The `loop` body of `skip_name` (source lines 59–83).  `plen` is the
`packet_len` local; `fuel` is an upper bound on the remaining iterations
(the source loop terminates because `offset` strictly increases and stays
below `packet_len`; `skip_name` passes `plen + 1`, which is proved
sufficient below, so the `fuel = 0` case is unreachable). -/
def skip_name_loop (p : List Nat) (plen : Nat) :
    Nat → Nat → Nat → Nat → Res (Nat × Nat)
  | 0, _, _, _ => .crash
  | fuel + 1, offset, name_len, labels_count =>
    match p[offset]? with
    | none => .crash
    | some len =>
      if len &&& 0xc0 == 0xc0 then
        if 2 > plen - offset then .err .incompleteOffset
        else .ok (offset + 2, labels_count)
      else if len > 0x3f then .err .labelTooLong
      else
        let label_len := len
        if label_len ≥ plen - offset - 1 then .err .malformedName
        else
          let name_len := name_len + label_len + 1
          if name_len > 256 then .err .nameTooLong
          else
            let offset := offset + label_len + 1
            if label_len == 0 then .ok (offset, labels_count)
            else skip_name_loop p plen fuel offset name_len (labels_count + 1)

/-- `fn skip_name(packet: &[u8], offset: usize) -> Result<(usize, u16), _>`.
When the packet is empty, `packet_len - 1` underflows: a debug build aborts
on the subtraction, and a release build wraps to `usize::MAX` and then
aborts on the out-of-bounds index `packet[offset]`; both abort, so the
model crashes. -/
def skip_name (p : List Nat) (offset : Nat) : Res (Nat × Nat) :=
  let plen := p.length
  if plen = 0 then .crash
  else if offset ≥ plen - 1 then .err .shortPacket
  else skip_name_loop p plen (plen + 1) offset 0 0

/-- `fn traverse_rrs` (source lines 87–111).  The Rust callback is an
`FnMut` closure whose captured mutable environment is made explicit as a
state `s : σ` threaded through `cb`; the callback runs before `rdlen` is
read, exactly as in the source.  Recursion is on the record counter. -/
def traverse_rrs {σ : Type} (p : List Nat) (cb : σ → Nat → Res σ) :
    Nat → Nat → σ → Res (Nat × σ)
  | offset, 0, s => .ok (offset, s)
  | offset, rrcount + 1, s =>
    match skip_name p offset with
    | .crash => .crash
    | .err e => .err e
    | .ok (off, _) =>
      if 10 > p.length - off then .err .shortPacket
      else
        match cb s off with
        | .crash => .crash
        | .err e => .err e
        | .ok s' =>
          match p[off + 8]?, p[off + 9]? with
          | some r0, some r1 =>
            let rdlen := (r0 <<< 8) ||| r1
            if rdlen > p.length - (off + 10) then .err .recordOverflow
            else traverse_rrs p cb (off + 10 + rdlen) rrcount s'
          | _, _ => .crash

/-- The `min_ttl` record callback (source lines 170–179): read the type and
TTL fields of the record at `off` and lower the accumulator when the record
is not OPT (41) and its TTL is smaller. -/
def ttl_cb (p : List Nat) (acc : Nat) (off : Nat) : Res Nat :=
  match p[off]?, p[off + 1]?, p[off + 4]?, p[off + 5]?, p[off + 6]?,
      p[off + 7]? with
  | some b0, some b1, some b4, some b5, some b6, some b7 =>
    let qtype := (b0 <<< 8) ||| b1
    let ttl := (b4 <<< 24) ||| (b5 <<< 16) ||| (b6 <<< 8) ||| b7
    .ok (if qtype ≠ 41 ∧ ttl < acc then ttl else acc)
  | _, _, _, _, _, _ => .crash

/-- The validation prelude shared verbatim by `min_ttl` (lines 145–163) and
`set_edns_max_payload_size` (lines 216–234): question count must be 1,
`12 < packet_len < 65535`, skip the question name, `assert!(offset > 12)`
(a failed assert aborts, hence `.crash`), require 4 more bytes
(qtype + qclass) and step over them. -/
def question_prelude (p : List Nat) : Res Nat :=
  match hdr16 p 4 with
  | .crash => .crash
  | .err e => .err e
  | .ok qd =>
    if qd ≠ 1 then .err .unsupportedQuestionCount
    else if p.length ≤ 12 then .err .shortPacket
    else if p.length ≥ 65535 then .err .largePacket
    else
      match skip_name p 12 with
      | .crash => .crash
      | .err e => .err e
      | .ok (off, _) =>
        if off ≤ 12 then .crash
        else if 4 > p.length - off then .err .shortPacket
        else .ok (off + 4)

/-- `pub(crate) fn min_ttl` (source lines 139–188).  The three section
counts are `u16`s and their sum wraps modulo 2^16 (release profile).
The wildcard header-read arms are unreachable: the prelude established
`packet_len ≥ 13`. -/
def min_ttl (p : List Nat) (minTtl maxTtl failureTtl : Nat) : Res Nat :=
  match question_prelude p with
  | .crash => .crash
  | .err e => .err e
  | .ok offset =>
    match hdr16 p 6, hdr16 p 8, hdr16 p 10 with
    | .ok an, .ok ns, .ok ar =>
      let rrcount := (an + ns + ar) % 65536
      let start := if rrcount > 0 then maxTtl else failureTtl
      match traverse_rrs p (ttl_cb p) offset rrcount start with
      | .crash => .crash
      | .err e => .err e
      | .ok (off2, found) =>
        let found := if found < minTtl then minTtl else found
        if off2 ≠ p.length then .err .trailingGarbage
        else .ok found
    | _, _, _ => .crash

/-- Record-walk skeleton: the offsets of the fixed (type/class/ttl/rdlength)
headers of the `rrcount` records starting at `offset`, together with the
offset after the last record.  This is `traverse_rrs` with the trivial
collecting callback, spelled out so the an accepted record layout can be
named in theorem statements. -/
def rr_offsets (p : List Nat) : Nat → Nat → Res (Nat × List Nat)
  | offset, 0 => .ok (offset, [])
  | offset, rrcount + 1 =>
    match skip_name p offset with
    | .crash => .crash
    | .err e => .err e
    | .ok (off, _) =>
      if 10 > p.length - off then .err .shortPacket
      else
        match p[off + 8]?, p[off + 9]? with
        | some r0, some r1 =>
          let rdlen := (r0 <<< 8) ||| r1
          if rdlen > p.length - (off + 10) then .err .recordOverflow
          else
            match rr_offsets p (off + 10 + rdlen) rrcount with
            | .crash => .crash
            | .err e => .err e
            | .ok (off', offs) => .ok (off', off :: offs)
        | _, _ => .crash

/-- The 32-bit big-endian TTL field of the record whose fixed header starts
at `t` (bytes 4–7 of that header); total in-bounds view for statements. -/
def ttl32 (p : List Nat) (t : Nat) : Nat :=
  ((p[t + 4]?.getD 0) <<< 24) ||| ((p[t + 5]?.getD 0) <<< 16) |||
    ((p[t + 6]?.getD 0) <<< 8) ||| (p[t + 7]?.getD 0)

/-- Pure residue of one `ttl_cb` step, used to state what the TTL walk
accumulates. -/
def ttl_step (p : List Nat) (acc : Nat) (t : Nat) : Nat :=
  if val16 p t ≠ 41 ∧ ttl32 p t < acc then ttl32 p t else acc

/-- One OPT rewrite: the 2-byte class field right after the type field at
`t` is overwritten with `max_payload_size` big-endian
(`packet[offset+2] = (sz >> 8) as u8; packet[offset+3] = sz as u8`). -/
def w2 (p : List Nat) (t sz : Nat) : List Nat :=
  (p.set (t + 2) ((sz >>> 8) % 256)).set (t + 3) (sz % 256)

/-- `fn traverse_rrs_mut` (source lines 113–137) specialised to the one
closure it is ever called with (source lines 242–253): on each record whose
type is OPT (41), fail with `DuplicateOpt` when the flag `found`
(`edns_payload_set`) is already set, otherwise overwrite the class field
with `sz` and set the flag.  `plen` is the `packet_len` local captured once
at entry.  The mutated buffer accompanies every outcome. -/
def traverse_rrs_mut_edns (sz plen : Nat) :
    List Nat → Nat → Nat → Bool → List Nat × Res (Nat × Bool)
  | p, offset, 0, found => (p, .ok (offset, found))
  | p, offset, rrcount + 1, found =>
    match skip_name p offset with
    | .crash => (p, .crash)
    | .err e => (p, .err e)
    | .ok (off, _) =>
      if 10 > plen - off then (p, .err .shortPacket)
      else
        match p[off]?, p[off + 1]? with
        | some b0, some b1 =>
          if (b0 <<< 8) ||| b1 = 41 then
            if found then (p, .err .duplicateOpt)
            else
              let p' := w2 p off sz
              match p'[off + 8]?, p'[off + 9]? with
              | some r0, some r1 =>
                let rdlen := (r0 <<< 8) ||| r1
                if rdlen > plen - (off + 10) then (p', .err .recordOverflow)
                else traverse_rrs_mut_edns sz plen p' (off + 10 + rdlen) rrcount true
              | _, _ => (p', .crash)
          else
            match p[off + 8]?, p[off + 9]? with
            | some r0, some r1 =>
              let rdlen := (r0 <<< 8) ||| r1
              if rdlen > plen - (off + 10) then (p, .err .recordOverflow)
              else traverse_rrs_mut_edns sz plen p (off + 10 + rdlen) rrcount found
            | _, _ => (p, .crash)
        | _, _ => (p, .crash)

/-- `fn add_edns_section` (source lines 190–210): refuse when fewer than 11
of the 65,535 permitted bytes remain, bump `arcount` (refusing at 0xffff),
then append the 11-byte minimal OPT record. -/
def add_edns_section (p : List Nat) (sz : Nat) : List Nat × Res Unit :=
  let opt_rr : List Nat :=
    [0, (41 >>> 8) % 256, 41 % 256, (sz >>> 8) % 256, sz % 256, 0, 0, 0, 0, 0, 0]
  if 65535 - p.length < 11 then (p, .err .largePacket)
  else
    match hdr16 p 10 with
    | .ok ar =>
      if ar = 0xffff then (p, .err .tooManyAdditionalRecords)
      else
        let ar' := ar + 1
        let p' := (p.set 10 ((ar' >>> 8) % 256)).set 11 (ar' % 256)
        (p' ++ opt_rr, .ok ())
    | _ => (p, .crash)

/-- `pub(crate) fn set_edns_max_payload_size` (source lines 212–261):
prelude, read the section counts, skip answer + authority records
read-only (count again a wrapping `u16` sum), walk the additional records
with the mutating OPT callback, and append a fresh OPT record when none
was found. -/
def set_edns_max_payload_size (p : List Nat) (sz : Nat) : List Nat × Res Unit :=
  match question_prelude p with
  | .crash => (p, .crash)
  | .err e => (p, .err e)
  | .ok offset =>
    match hdr16 p 6, hdr16 p 8, hdr16 p 10 with
    | .ok an, .ok ns, .ok ar =>
      match traverse_rrs p (fun (s : Unit) _ => .ok s) offset ((an + ns) % 65536) () with
      | .crash => (p, .crash)
      | .err e => (p, .err e)
      | .ok (off2, _) =>
        match traverse_rrs_mut_edns sz p.length p off2 ar false with
        | (p2, .crash) => (p2, .crash)
        | (p2, .err e) => (p2, .err e)
        | (p2, .ok (_, found)) =>
          if found then (p2, .ok ())
          else add_edns_section p2 sz
    | _, _, _ => (p, .crash)

/-! ### Concrete packets used as witnesses and counterexamples

All are well-formed byte lists (every element < 256). -/

/-- Response with one question and two A-type answer records with TTLs 300
and 100 (the spec's own test vector). -/
def c1wit : List Nat :=
  [0, 0, 0, 0, 0, 1, 0, 2, 0, 0, 0, 0] ++ [0, 0, 1, 0, 1] ++
    [0, 0, 1, 0, 1, 0, 0, 1, 44, 0, 0] ++ [0, 0, 1, 0, 1, 0, 0, 0, 100, 0, 0]

/-- Header with `ancount = 0x8000`, `nscount = 0x8000`, `arcount = 0`
(mathematical sum 65,536, wrapping to a `u16` record count of 0), one root
question, no records. -/
def c1cx : List Nat :=
  [0, 0, 0, 0, 0, 1, 0x80, 0, 0x80, 0, 0, 0] ++ [0, 0, 0, 0, 0]

/-- 17-byte prefix (header with one question and zero records) of the
65,524-byte packet used against C4. -/
def c4hdr : List Nat := [0, 0, 0, 0, 0, 1, 0, 0, 0, 0, 0, 0, 0, 0, 0, 0, 0]

/-- A 65,524-byte packet accepted by `set_edns_max_payload_size`
(`set_edns_max_payload_size` performs no trailing-garbage check, so the
65,507 filler bytes after the question are ignored). -/
def c4buf : List Nat := c4hdr ++ List.replicate 65507 7

/-- One question, zero records: `set_edns_max_payload_size` appends. -/
def w5pkt : List Nat := [0, 0, 0, 0, 0, 1, 0, 0, 0, 0, 0, 0, 0, 0, 1, 0, 1]

/-- One question and exactly one OPT record (type 41) in the additional
section; its type field starts at offset 18. -/
def w6pkt : List Nat :=
  [0, 0, 0, 0, 0, 1, 0, 0, 0, 0, 0, 1] ++ [0, 0, 1, 0, 1] ++
    [0, 0, 41, 0, 0, 0, 0, 0, 0, 0, 0]

/-- One question and two OPT records in the additional section, with type
fields at offsets 18 and 29. -/
def w7pkt : List Nat :=
  [0, 0, 0, 0, 0, 1, 0, 0, 0, 0, 0, 2] ++ [0, 0, 1, 0, 1] ++
    [0, 0, 41, 0, 0, 0, 0, 0, 0, 0, 0] ++ [0, 0, 41, 0, 0, 0, 0, 0, 0, 0, 0]

/-- One question, zero records, and one trailing garbage byte. -/
def c8wit : List Nat :=
  [0, 0, 0, 0, 0, 1, 0, 0, 0, 0, 0, 0] ++ [0, 0, 1, 0, 1] ++ [9]

example : skip_name [3, 97, 98, 99, 0, 7] 0 = .ok (5, 1) := by decide
example : skip_name [0xc0, 0x02] 0 = .ok (2, 0) := by decide
example : skip_name [0, 1] 0 = .ok (1, 0) := by decide
example : skip_name [0] 0 = .err .shortPacket := by decide
example : skip_name ([] : List Nat) 0 = .crash := by decide
example : skip_name [0x40, 0, 0] 0 = .err .labelTooLong := by decide
example : skip_name [2, 97, 0] 0 = .err .malformedName := by decide

example :
    min_ttl
      ([0, 0, 0, 0, 0, 1, 0, 2, 0, 0, 0, 0] ++ [0, 0, 1, 0, 1] ++
        [0, 0, 1, 0, 1, 0, 0, 1, 44, 0, 0] ++ [0, 0, 1, 0, 1, 0, 0, 0, 100, 0, 0])
      50 3600 0 = .ok 100 := by decide

example :
    min_ttl
      ([0, 0, 0, 0, 0, 1, 0, 1, 0, 0, 0, 0] ++ [0, 0, 1, 0, 1] ++
        [0, 0, 1, 0, 1, 0, 0, 0, 10, 0, 0])
      50 3600 0 = .ok 50 := by decide

example :
    min_ttl [0, 0, 0, 0, 0, 1, 0, 0, 0, 0, 0, 0, 0, 0, 1, 0, 1] 5 3600 7 =
      .ok 7 := by decide

example :
    min_ttl [0, 0, 0, 0, 0, 1, 0, 0, 0, 0, 0, 0, 0, 0, 1, 0, 1, 9] 5 3600 7 =
      .err .trailingGarbage := by decide

example :
    min_ttl [0, 0, 0, 0, 0, 1, 0x80, 0, 0x80, 0, 0, 0, 0, 0, 0, 0, 0] 0 100 7 =
      .ok 7 := by decide

example :
    set_edns_max_payload_size
      [0, 0, 0, 0, 0, 1, 0, 0, 0, 0, 0, 0, 0, 0, 1, 0, 1] 512 =
    ([0, 0, 0, 0, 0, 1, 0, 0, 0, 0, 0, 1, 0, 0, 1, 0, 1] ++
      [0, 0, 41, 2, 0, 0, 0, 0, 0, 0, 0], .ok ()) := by decide

example :
    set_edns_max_payload_size
      ([0, 0, 0, 0, 0, 1, 0, 0, 0, 0, 0, 1] ++ [0, 0, 1, 0, 1] ++
        [0, 0, 41, 0, 0, 0, 0, 0, 0, 0, 0]) 1232 =
    ([0, 0, 0, 0, 0, 1, 0, 0, 0, 0, 0, 1] ++ [0, 0, 1, 0, 1] ++
      [0, 0, 41, 4, 208, 0, 0, 0, 0, 0, 0], .ok ()) := by decide

example :
    set_edns_max_payload_size
      ([0, 0, 0, 0, 0, 1, 0, 0, 0, 0, 0, 2] ++ [0, 0, 1, 0, 1] ++
        [0, 0, 41, 0, 0, 0, 0, 0, 0, 0, 0] ++ [0, 0, 41, 0, 0, 0, 0, 0, 0, 0, 0]) 1232 =
    ([0, 0, 0, 0, 0, 1, 0, 0, 0, 0, 0, 2] ++ [0, 0, 1, 0, 1] ++
      [0, 0, 41, 4, 208, 0, 0, 0, 0, 0, 0] ++ [0, 0, 41, 0, 0, 0, 0, 0, 0, 0, 0],
      .err .duplicateOpt) := by decide

/-! ### Lemmas about the name walker -/

theorem skip_name_loop_le (p : List Nat) (plen : Nat) :
    ∀ fuel offset nl lb off' k,
      skip_name_loop p plen fuel offset nl lb = .ok (off', k) → off' ≤ plen := by
  intro fuel
  induction fuel with
  | zero =>
    intro offset nl lb off' k h
    simp [skip_name_loop] at h
  | succ fuel ih =>
    intro offset nl lb off' k h
    simp only [skip_name_loop] at h
    split at h
    · exact absurd h (by simp)
    · split at h
      · split at h
        · exact absurd h (by simp)
        · simp only [Res.ok.injEq, Prod.mk.injEq] at h
          omega
      · split at h
        · exact absurd h (by simp)
        · split at h
          · exact absurd h (by simp)
          · split at h
            · exact absurd h (by simp)
            · split at h
              · simp only [Res.ok.injEq, Prod.mk.injEq] at h
                omega
              · exact ih _ _ _ _ _ h

theorem skip_name_loop_ge (p : List Nat) (plen : Nat) :
    ∀ fuel offset nl lb off' k,
      skip_name_loop p plen fuel offset nl lb = .ok (off', k) →
      offset + 1 ≤ off' := by
  intro fuel
  induction fuel with
  | zero =>
    intro offset nl lb off' k h
    simp [skip_name_loop] at h
  | succ fuel ih =>
    intro offset nl lb off' k h
    simp only [skip_name_loop] at h
    split at h
    · exact absurd h (by simp)
    · split at h
      · split at h
        · exact absurd h (by simp)
        · simp only [Res.ok.injEq, Prod.mk.injEq] at h
          omega
      · split at h
        · exact absurd h (by simp)
        · split at h
          · exact absurd h (by simp)
          · split at h
            · exact absurd h (by simp)
            · split at h
              · simp only [Res.ok.injEq, Prod.mk.injEq] at h
                omega
              · have := ih _ _ _ _ _ h
                omega

theorem skip_name_loop_ne_crash (p : List Nat) :
    ∀ fuel offset nl lb, offset < p.length → p.length - offset ≤ fuel →
      skip_name_loop p p.length fuel offset nl lb ≠ .crash := by
  intro fuel
  induction fuel with
  | zero =>
    intro offset nl lb hlt hfuel
    omega
  | succ fuel ih =>
    intro offset nl lb hlt hfuel
    simp only [skip_name_loop]
    split
    · rename_i hnone
      rw [List.getElem?_eq_none_iff] at hnone
      omega
    · rename_i len hsome
      split
      · split <;> simp
      · split
        · simp
        · split
          · simp
          · split
            · simp
            · split
              · simp
              · rename_i hptr hlong hmal hname hzero
                apply ih
                · omega
                · omega

theorem skip_name_loop_err (p : List Nat) (plen : Nat) :
    ∀ fuel offset nl lb e,
      skip_name_loop p plen fuel offset nl lb = .err e →
      e = .incompleteOffset ∨ e = .labelTooLong ∨ e = .malformedName ∨
        e = .nameTooLong := by
  intro fuel
  induction fuel with
  | zero =>
    intro offset nl lb e h
    simp [skip_name_loop] at h
  | succ fuel ih =>
    intro offset nl lb e h
    simp only [skip_name_loop] at h
    split at h
    · exact absurd h (by simp)
    · split at h
      · split at h
        · simp only [Res.err.injEq] at h
          exact Or.inl h.symm
        · exact absurd h (by simp)
      · split at h
        · simp only [Res.err.injEq] at h
          exact Or.inr (Or.inl h.symm)
        · split at h
          · simp only [Res.err.injEq] at h
            exact Or.inr (Or.inr (Or.inl h.symm))
          · split at h
            · simp only [Res.err.injEq] at h
              exact Or.inr (Or.inr (Or.inr h.symm))
            · split at h
              · exact absurd h (by simp)
              · exact ih _ _ _ _ h

theorem skip_name_loop_frame (p q : List Nat) (plen m : Nat)
    (hlen : p.length = q.length) (hag : ∀ i, m ≤ i → p[i]? = q[i]?) :
    ∀ fuel offset nl lb, m ≤ offset →
      skip_name_loop p plen fuel offset nl lb =
        skip_name_loop q plen fuel offset nl lb := by
  intro fuel
  induction fuel with
  | zero =>
    intro offset nl lb hm
    simp [skip_name_loop]
  | succ fuel ih =>
    intro offset nl lb hm
    simp only [skip_name_loop, hag offset hm]
    split
    · rfl
    · rename_i len hsome
      split
      · rfl
      · split
        · rfl
        · split
          · rfl
          · split
            · rfl
            · split
              · rfl
              · exact ih _ _ _ (by omega)

theorem skip_name_le (p : List Nat) (offset off' k : Nat)
    (h : skip_name p offset = .ok (off', k)) : off' ≤ p.length := by
  rw [skip_name] at h
  split at h
  · exact absurd h (by simp)
  · split at h
    · exact absurd h (by simp)
    · exact skip_name_loop_le p p.length _ _ _ _ _ _ h

theorem skip_name_ge (p : List Nat) (offset off' k : Nat)
    (h : skip_name p offset = .ok (off', k)) : offset + 1 ≤ off' := by
  rw [skip_name] at h
  split at h
  · exact absurd h (by simp)
  · split at h
    · exact absurd h (by simp)
    · exact skip_name_loop_ge p p.length _ _ _ _ _ _ h

theorem skip_name_ne_crash (p : List Nat) (offset : Nat) (hp : p ≠ []) :
    skip_name p offset ≠ .crash := by
  rw [skip_name]
  split
  · rename_i h0
    exact absurd (List.eq_nil_of_length_eq_zero h0) hp
  · split
    · simp
    · rename_i h0 hoff
      exact skip_name_loop_ne_crash p _ _ _ _ (by omega) (by omega)

theorem skip_name_err (p : List Nat) (offset : Nat) (e : DnsErr)
    (h : skip_name p offset = .err e) :
    e = .shortPacket ∨ e = .incompleteOffset ∨ e = .labelTooLong ∨
      e = .malformedName ∨ e = .nameTooLong := by
  rw [skip_name] at h
  split at h
  · exact absurd h (by simp)
  · split at h
    · simp only [Res.err.injEq] at h
      exact Or.inl h.symm
    · exact Or.inr (skip_name_loop_err p p.length _ _ _ _ _ h)

theorem skip_name_frame (p q : List Nat) (m offset : Nat)
    (hlen : p.length = q.length) (hag : ∀ i, m ≤ i → p[i]? = q[i]?)
    (hm : m ≤ offset) : skip_name p offset = skip_name q offset := by
  rw [skip_name, skip_name, hlen]
  split
  · rfl
  · split
    · rfl
    · exact skip_name_loop_frame p q _ m hlen hag _ _ _ _ hm

/-! ### Lemmas about the record walkers -/

theorem hdr16_ok (p : List Nat) (i : Nat) (h : i + 2 ≤ p.length) :
    hdr16 p i = .ok (val16 p i) := by
  have h1 : p[i]? = some p[i] := List.getElem?_eq_getElem (by omega)
  have h2 : p[i + 1]? = some p[i + 1] := List.getElem?_eq_getElem (by omega)
  simp [hdr16, val16, h1, h2]

theorem rr_offsets_ge (p : List Nat) :
    ∀ n offset off' offs, rr_offsets p offset n = .ok (off', offs) →
      offset ≤ off' ∧ ∀ u ∈ offs, offset ≤ u ∧ u + 10 ≤ p.length := by
  intro n
  induction n with
  | zero =>
    intro offset off' offs h
    simp only [rr_offsets, Res.ok.injEq, Prod.mk.injEq] at h
    obtain ⟨h1, h2⟩ := h
    subst h1; subst h2
    simp
  | succ n ih =>
    intro offset off' offs h
    simp only [rr_offsets] at h
    split at h
    · exact absurd h (by simp)
    · exact absurd h (by simp)
    · rename_i off lc hskip
      have hge := skip_name_ge p offset off lc hskip
      split at h
      · exact absurd h (by simp)
      · rename_i hguard
        split at h
        · rename_i r0 r1 h8 h9
          split at h
          · exact absurd h (by simp)
          · rename_i hrd
            split at h
            · exact absurd h (by simp)
            · exact absurd h (by simp)
            · rename_i off2 offs2 hrec
              simp only [Res.ok.injEq, Prod.mk.injEq] at h
              obtain ⟨h1, h2⟩ := h
              subst h1; subst h2
              obtain ⟨ha, hb⟩ := ih _ _ _ hrec
              refine ⟨by omega, ?_⟩
              intro u hu
              rcases List.mem_cons.mp hu with rfl | hu
              · exact ⟨by omega, by omega⟩
              · have := hb u hu
                exact ⟨by omega, this.2⟩
        · exact absurd h (by simp)

theorem rr_offsets_le (p : List Nat) :
    ∀ n offset off' offs, offset ≤ p.length →
      rr_offsets p offset n = .ok (off', offs) → off' ≤ p.length := by
  intro n
  induction n with
  | zero =>
    intro offset off' offs hle h
    simp only [rr_offsets, Res.ok.injEq, Prod.mk.injEq] at h
    omega
  | succ n ih =>
    intro offset off' offs hle h
    simp only [rr_offsets] at h
    split at h
    · exact absurd h (by simp)
    · exact absurd h (by simp)
    · rename_i off lc hskip
      split at h
      · exact absurd h (by simp)
      · rename_i hguard
        split at h
        · rename_i r0 r1 h8 h9
          split at h
          · exact absurd h (by simp)
          · rename_i hrd
            split at h
            · exact absurd h (by simp)
            · exact absurd h (by simp)
            · rename_i off2 offs2 hrec
              simp only [Res.ok.injEq, Prod.mk.injEq] at h
              obtain ⟨h1, h2⟩ := h
              subst h1
              exact ih _ _ _ (by omega) hrec
        · exact absurd h (by simp)

theorem rr_offsets_frame (p q : List Nat) (m : Nat)
    (hlen : p.length = q.length) (hag : ∀ i, m ≤ i → p[i]? = q[i]?) :
    ∀ n offset, m ≤ offset →
      rr_offsets p offset n = rr_offsets q offset n := by
  intro n
  induction n with
  | zero =>
    intro offset hm
    simp [rr_offsets]
  | succ n ih =>
    intro offset hm
    simp only [rr_offsets, skip_name_frame p q m offset hlen hag hm]
    split
    · rfl
    · rfl
    · rename_i off lc hskip
      have hge := skip_name_ge q offset off lc hskip
      rw [hlen]
      split
      · rfl
      · rename_i hguard
        rw [hag (off + 8) (by omega), hag (off + 9) (by omega)]
        split
        · rename_i r0 r1 h8 h9
          rw [ih (off + 10 + ((r0 <<< 8) ||| r1)) (by omega)]
        · rfl

theorem traverse_rrs_of_rr_offsets {σ : Type} (p : List Nat)
    (cb : σ → Nat → Res σ) (f : σ → Nat → σ)
    (hcb : ∀ s off, off + 10 ≤ p.length → cb s off = .ok (f s off)) :
    ∀ n offset s off' offs, rr_offsets p offset n = .ok (off', offs) →
      traverse_rrs p cb offset n s = .ok (off', offs.foldl f s) := by
  intro n
  induction n with
  | zero =>
    intro offset s off' offs h
    simp only [rr_offsets, Res.ok.injEq, Prod.mk.injEq] at h
    obtain ⟨h1, h2⟩ := h
    subst h1; subst h2
    simp [traverse_rrs]
  | succ n ih =>
    intro offset s off' offs h
    simp only [rr_offsets] at h
    split at h
    · exact absurd h (by simp)
    · exact absurd h (by simp)
    · rename_i off lc hskip
      simp only [traverse_rrs, hskip]
      split at h
      · exact absurd h (by simp)
      · rename_i hguard
        simp only [hguard, if_false]
        rw [hcb s off (by omega)]
        split at h
        · rename_i r0 r1 h8 h9
          simp only [h8, h9]
          split at h
          · exact absurd h (by simp)
          · rename_i hrd
            simp only [hrd, if_false]
            split at h
            · exact absurd h (by simp)
            · exact absurd h (by simp)
            · rename_i off2 offs2 hrec
              simp only [Res.ok.injEq, Prod.mk.injEq] at h
              obtain ⟨h1, h2⟩ := h
              subst h1; subst h2
              simp only [List.foldl_cons]
              exact ih _ _ _ _ hrec
        · exact absurd h (by simp)

theorem traverse_rrs_ne_crash {σ : Type} (p : List Nat)
    (cb : σ → Nat → Res σ)
    (hcb : ∀ s off, off + 10 ≤ p.length → cb s off ≠ .crash)
    (hp : p ≠ []) :
    ∀ n offset s, traverse_rrs p cb offset n s ≠ .crash := by
  intro n
  induction n with
  | zero =>
    intro offset s
    simp [traverse_rrs]
  | succ n ih =>
    intro offset s
    simp only [traverse_rrs]
    split
    · rename_i hsk
      exact absurd hsk (skip_name_ne_crash p offset hp)
    · simp
    · rename_i off lc hskip
      split
      · simp
      · rename_i hguard
        have hb : off + 10 ≤ p.length := by omega
        split
        · rename_i hcbcrash
          exact absurd hcbcrash (hcb s off hb)
        · simp
        · rename_i s' hcbok
          split
          · rename_i r0 r1 h8 h9
            split
            · simp
            · exact ih _ _
          · rename_i hwild
            have h8 : p[off + 8]? = some p[off + 8] :=
              List.getElem?_eq_getElem (by omega)
            have h9 : p[off + 9]? = some p[off + 9] :=
              List.getElem?_eq_getElem (by omega)
            exact (hwild _ _ h8 h9).elim

theorem ttl_cb_ok (p : List Nat) (s off : Nat) (h : off + 10 ≤ p.length) :
    ttl_cb p s off = .ok (ttl_step p s off) := by
  have h0 : p[off]? = some p[off] := List.getElem?_eq_getElem (by omega)
  have h1 : p[off + 1]? = some p[off + 1] := List.getElem?_eq_getElem (by omega)
  have h4 : p[off + 4]? = some p[off + 4] := List.getElem?_eq_getElem (by omega)
  have h5 : p[off + 5]? = some p[off + 5] := List.getElem?_eq_getElem (by omega)
  have h6 : p[off + 6]? = some p[off + 6] := List.getElem?_eq_getElem (by omega)
  have h7 : p[off + 7]? = some p[off + 7] := List.getElem?_eq_getElem (by omega)
  simp [ttl_cb, ttl_step, val16, ttl32, h0, h1, h4, h5, h6, h7]

theorem question_prelude_facts (p : List Nat) (off1 : Nat)
    (h : question_prelude p = .ok off1) :
    13 ≤ p.length ∧ p.length ≤ 65534 ∧ 17 ≤ off1 ∧ off1 ≤ p.length := by
  rw [question_prelude] at h
  split at h
  · exact absurd h (by simp)
  · exact absurd h (by simp)
  · split at h
    · exact absurd h (by simp)
    · split at h
      · exact absurd h (by simp)
      · split at h
        · exact absurd h (by simp)
        · split at h
          · exact absurd h (by simp)
          · exact absurd h (by simp)
          · rename_i hq h12 h65 off lc hskip
            have hle := skip_name_le p 12 off lc hskip
            split at h
            · exact absurd h (by simp)
            · split at h
              · exact absurd h (by simp)
              · simp only [Res.ok.injEq] at h
                omega

theorem min_ttl_eq (p : List Nat) (a b c off1 off2 : Nat) (offs : List Nat)
    (h1 : question_prelude p = .ok off1)
    (h2 : rr_offsets p off1 ((val16 p 6 + val16 p 8 + val16 p 10) % 65536) =
      .ok (off2, offs)) :
    min_ttl p a b c =
      if off2 = p.length then
        .ok (Nat.max a (offs.foldl (ttl_step p)
          (if (val16 p 6 + val16 p 8 + val16 p 10) % 65536 > 0 then b else c)))
      else .err .trailingGarbage := by
  obtain ⟨hl13, hl65, hoff17, hoffle⟩ := question_prelude_facts p off1 h1
  simp only [min_ttl, h1, hdr16_ok p 6 (by omega), hdr16_ok p 8 (by omega),
    hdr16_ok p 10 (by omega)]
  rw [traverse_rrs_of_rr_offsets p (ttl_cb p) (ttl_step p)
    (fun s off hb => ttl_cb_ok p s off hb) _ _ _ off2 offs h2]
  by_cases hlen : off2 = p.length
  · rw [if_pos hlen]
    have hne : ¬ (off2 ≠ p.length) := by omega
    simp only [hne, if_false]
    congr 1
    rcases Nat.lt_or_ge
        (offs.foldl (ttl_step p)
          (if (val16 p 6 + val16 p 8 + val16 p 10) % 65536 > 0 then b else c)) a
      with hlt | hge
    · rw [if_pos hlt]
      exact (Nat.max_eq_left (Nat.le_of_lt hlt)).symm
    · rw [if_neg (Nat.not_lt.mpr hge)]
      exact (Nat.max_eq_right hge).symm
  · rw [if_neg hlen]
    simp only [ne_eq, hlen, not_false_eq_true, if_true, ite_true]

theorem foldl_ttl_step (p : List Nat) :
    ∀ (offs : List Nat) (acc : Nat), offs.foldl (ttl_step p) acc =
      ((offs.filter fun u => !(val16 p u == 41)).map (ttl32 p)).foldl
        Nat.min acc := by
  intro offs
  induction offs with
  | nil => simp
  | cons u rest ih =>
    intro acc
    simp only [List.foldl_cons, List.filter_cons]
    by_cases h41 : val16 p u = 41
    · have hstep : ttl_step p acc u = acc := by
        rw [ttl_step, if_neg]
        simp [h41]
      simp [h41, hstep, ih]
    · have hstep : ttl_step p acc u = Nat.min acc (ttl32 p u) := by
        rw [ttl_step]
        split
        · rename_i hc
          exact (Nat.min_eq_right (Nat.le_of_lt hc.2)).symm
        · rename_i hc
          simp only [h41, ne_eq, not_false_eq_true, true_and, not_lt] at hc
          exact (Nat.min_eq_left hc).symm
      have hf : (!(val16 p u == 41)) = true := by simp [h41]
      rw [if_pos hf]
      simp only [List.map_cons, List.foldl_cons, hstep, ih]

/-! ### Lemmas about the mutating OPT walk -/

theorem w2_length (p : List Nat) (t sz : Nat) :
    (w2 p t sz).length = p.length := by
  simp [w2]

theorem w2_getElem_ne (p : List Nat) (t sz i : Nat) (h2 : i ≠ t + 2)
    (h3 : i ≠ t + 3) : (w2 p t sz)[i]? = p[i]? := by
  rw [w2, List.getElem?_set_ne (by omega), List.getElem?_set_ne (by omega)]

theorem w2_val16 (p : List Nat) (t sz : Nat) (h : t + 4 ≤ p.length) :
    val16 (w2 p t sz) (t + 2) = (((sz >>> 8) % 256) <<< 8) ||| (sz % 256) := by
  have e2 : (w2 p t sz)[t + 2]? = some ((sz >>> 8) % 256) := by
    rw [w2, List.getElem?_set_ne (by omega),
      List.getElem?_set_self (by omega)]
  have e3 : (w2 p t sz)[t + 3]? = some (sz % 256) := by
    rw [w2, List.getElem?_set_self (by simp; omega)]
  simp only [val16, e2, e3, Option.getD_some]

/-- The mutating additional-section walk, described through the read-only
record skeleton: the outcome is entirely determined by which of the walked
records carry type OPT (41).  The packet threaded through the walk only
ever changes at the class field of the first OPT record. -/
theorem mut_walk_of_rr_offsets (sz : Nat) :
    ∀ (n : Nat) (p : List Nat) (offset : Nat) (found : Bool)
      (off' : Nat) (offs : List Nat),
      rr_offsets p offset n = .ok (off', offs) →
      traverse_rrs_mut_edns sz p.length p offset n found =
        match found, offs.filter (fun u => val16 p u == 41) with
        | false, [] => (p, .ok (off', false))
        | false, [t] => (w2 p t sz, .ok (off', true))
        | false, t :: _ :: _ => (w2 p t sz, .err .duplicateOpt)
        | true, [] => (p, .ok (off', true))
        | true, _ :: _ => (p, .err .duplicateOpt) := by
  intro n
  induction n with
  | zero =>
    intro p offset found off' offs h
    simp only [rr_offsets, Res.ok.injEq, Prod.mk.injEq] at h
    obtain ⟨h1, h2⟩ := h
    subst h1; subst h2
    cases found <;> simp [traverse_rrs_mut_edns]
  | succ n ih =>
    intro p offset found off' offs h
    simp only [rr_offsets] at h
    split at h
    · exact absurd h (by simp)
    · exact absurd h (by simp)
    · rename_i off lc hskip
      split at h
      · exact absurd h (by simp)
      · rename_i hguard
        split at h
        · rename_i r0 r1 h8 h9
          split at h
          · exact absurd h (by simp)
          · rename_i hrd
            split at h
            · exact absurd h (by simp)
            · exact absurd h (by simp)
            · rename_i off2 offs2 hrec
              simp only [Res.ok.injEq, Prod.mk.injEq] at h
              obtain ⟨hoff, hoffs⟩ := h
              subst hoff; subst hoffs
              have hb0 : p[off]? = some p[off] :=
                List.getElem?_eq_getElem (by omega)
              have hb1 : p[off + 1]? = some p[off + 1] :=
                List.getElem?_eq_getElem (by omega)
              have hval : val16 p off = (p[off] <<< 8) ||| p[off + 1] := by
                simp [val16, hb0, hb1]
              have hge2 := (rr_offsets_ge p n _ _ _ hrec).2
              simp only [traverse_rrs_mut_edns, hskip, hguard, if_false,
                hb0, hb1]
              by_cases hopt : (p[off] <<< 8) ||| p[off + 1] = 41
              · rw [if_pos hopt]
                have hfil : (off :: offs2).filter
                    (fun u => val16 p u == 41) =
                    off :: offs2.filter (fun u => val16 p u == 41) := by
                  simp [List.filter_cons, hval, hopt]
                rw [hfil]
                cases found with
                | true => rfl
                | false =>
                  have hlen2 : (w2 p off sz).length = p.length :=
                    w2_length p off sz
                  have e8 : (w2 p off sz)[off + 8]? = some r0 := by
                    rw [w2_getElem_ne p off sz _ (by omega) (by omega)]
                    exact h8
                  have e9 : (w2 p off sz)[off + 9]? = some r1 := by
                    rw [w2_getElem_ne p off sz _ (by omega) (by omega)]
                    exact h9
                  simp only [e8, e9, hrd, if_false]
                  have hframe : rr_offsets (w2 p off sz)
                      (off + 10 + ((r0 <<< 8) ||| r1)) n =
                      rr_offsets p (off + 10 + ((r0 <<< 8) ||| r1)) n := by
                    refine rr_offsets_frame (w2 p off sz) p (off + 4)
                      (by rw [hlen2]) ?_ n _ (by omega)
                    intro i hi
                    exact w2_getElem_ne p off sz i (by omega) (by omega)
                  have hrec2 : rr_offsets (w2 p off sz)
                      (off + 10 + ((r0 <<< 8) ||| r1)) n =
                      .ok (off2, offs2) := by rw [hframe]; exact hrec
                  have := ih (w2 p off sz) _ true off2 offs2 hrec2
                  rw [hlen2] at this
                  rw [this]
                  have hfil2 : offs2.filter
                      (fun u => val16 (w2 p off sz) u == 41) =
                      offs2.filter (fun u => val16 p u == 41) := by
                    refine List.filter_congr ?_
                    intro u hu
                    have hu2 := hge2 u hu
                    have : val16 (w2 p off sz) u = val16 p u := by
                      rw [val16, val16,
                        w2_getElem_ne p off sz u (by omega) (by omega),
                        w2_getElem_ne p off sz (u + 1) (by omega) (by omega)]
                    rw [this]
                  rw [hfil2]
                  cases hc : offs2.filter (fun u => val16 p u == 41) with
                  | nil => rfl
                  | cons u rest => rfl
              · rw [if_neg hopt]
                have hfil : (off :: offs2).filter
                    (fun u => val16 p u == 41) =
                    offs2.filter (fun u => val16 p u == 41) := by
                  simp [List.filter_cons, hval, hopt]
                rw [hfil]
                simp only [h8, h9, hrd, if_false]
                exact ih p _ found off2 offs2 hrec
        · exact absurd h (by simp)

/-! ### Arithmetic helpers for 16-bit fields -/

theorem val16_recompose (x : Nat) (h : x < 65536) :
    (((x >>> 8) % 256) <<< 8) ||| (x % 256) = x := by
  have h1 : x >>> 8 = x / 256 := by
    rw [Nat.shiftRight_eq_div_pow]
  have h2 : x / 256 < 256 := by omega
  rw [h1, Nat.mod_eq_of_lt h2, Nat.shiftLeft_eq]
  have h3 : x % 256 < 2 ^ 8 := by
    have : x % 256 < 256 := Nat.mod_lt x (by omega)
    simpa using this
  calc x / 256 * 2 ^ 8 ||| x % 256
      = 2 ^ 8 * (x / 256) ||| x % 256 := by rw [Nat.mul_comm]
    _ = 2 ^ 8 * (x / 256) + x % 256 := (Nat.mul_add_lt_is_or h3 _).symm
    _ = x := by omega

theorem val16_lt (p : List Nat) (hbytes : ∀ b ∈ p, b < 256) (i : Nat) :
    val16 p i < 65536 := by
  have hb : ∀ j : Nat, p[j]?.getD 0 < 256 := by
    intro j
    cases hj : p[j]? with
    | none => simp
    | some b =>
      have := hbytes b (List.getElem?_mem hj)
      simpa using this
  have h1 : (p[i]?.getD 0) <<< 8 < 65536 := by
    rw [Nat.shiftLeft_eq]
    have := hb i
    omega
  have h2 : p[i + 1]?.getD 0 < 65536 := by
    have := hb (i + 1)
    omega
  have h3 : (65536 : Nat) = 2 ^ 16 := by norm_num
  rw [val16]
  rw [h3] at h1 h2 ⊢
  exact Nat.or_lt_two_pow h1 h2

/-! ### Crash-freedom and length preservation -/

theorem mut_walk_length (sz plen : Nat) :
    ∀ n p offset found,
      (traverse_rrs_mut_edns sz plen p offset n found).1.length = p.length := by
  intro n
  induction n with
  | zero =>
    intro p offset found
    simp [traverse_rrs_mut_edns]
  | succ n ih =>
    intro p offset found
    simp only [traverse_rrs_mut_edns]
    repeat' split
    all_goals first
      | rfl
      | simp [ih, w2]

theorem mut_walk_ne_crash (sz : Nat) :
    ∀ n p offset found, p ≠ [] →
      (traverse_rrs_mut_edns sz p.length p offset n found).2 ≠ .crash := by
  intro n
  induction n with
  | zero =>
    intro p offset found hp
    simp [traverse_rrs_mut_edns]
  | succ n ih =>
    intro p offset found hp
    simp only [traverse_rrs_mut_edns]
    split
    · rename_i hsk
      exact absurd hsk (skip_name_ne_crash p offset hp)
    · simp
    · rename_i off lc hskip
      split
      · simp
      · rename_i hguard
        have hb : off + 10 ≤ p.length := by omega
        split
        · rename_i b0 b1 hb0 hb1
          split
          · split
            · simp
            · split
              · rename_i r0 r1 h8 h9
                split
                · simp
                · have hlen2 : (w2 p off sz).length = p.length :=
                    w2_length p off sz
                  have hne : w2 p off sz ≠ [] := by
                    intro hcon
                    have : (w2 p off sz).length = 0 := by rw [hcon]; rfl
                    rw [hlen2] at this
                    exact hp (List.eq_nil_of_length_eq_zero this)
                  have := ih (w2 p off sz) (off + 10 + ((r0 <<< 8) ||| r1))
                    true hne
                  rw [hlen2] at this
                  exact this
              · rename_i hwild
                have h8 : (w2 p off sz)[off + 8]? = some p[off + 8] := by
                  rw [w2_getElem_ne p off sz _ (by omega) (by omega)]
                  exact List.getElem?_eq_getElem (by omega)
                have h9 : (w2 p off sz)[off + 9]? = some p[off + 9] := by
                  rw [w2_getElem_ne p off sz _ (by omega) (by omega)]
                  exact List.getElem?_eq_getElem (by omega)
                exact (hwild _ _ h8 h9).elim
          · split
            · split
              · simp
              · exact ih p _ _ hp
            · rename_i hwild
              have h8 : p[off + 8]? = some p[off + 8] :=
                List.getElem?_eq_getElem (by omega)
              have h9 : p[off + 9]? = some p[off + 9] :=
                List.getElem?_eq_getElem (by omega)
              exact (hwild _ _ h8 h9).elim
        · rename_i hwild
          have h0 : p[off]? = some p[off] :=
            List.getElem?_eq_getElem (by omega)
          have h1 : p[off + 1]? = some p[off + 1] :=
            List.getElem?_eq_getElem (by omega)
          exact (hwild _ _ h0 h1).elim

theorem question_prelude_ne_crash (p : List Nat) (h : 6 ≤ p.length) :
    question_prelude p ≠ .crash := by
  simp only [question_prelude, hdr16_ok p 4 (by omega)]
  split
  · simp
  · split
    · simp
    · split
      · simp
      · split
        · rename_i hsk
          exact absurd hsk
            (skip_name_ne_crash p 12 (List.length_pos.mp (by omega)))
        · simp
        · rename_i off lc hskip
          have := skip_name_ge p 12 off lc hskip
          split
          · exfalso
            omega
          · split
            · simp
            · simp

theorem question_prelude_eq (p : List Nat) (off : Nat)
    (hq : hdr16 p 4 = .ok 1) (h12 : ¬ p.length ≤ 12)
    (h65 : ¬ p.length ≥ 65535) (hsk : skip_name p 12 = .ok (off, 0))
    (hoff : ¬ off ≤ 12) (h4 : ¬ 4 > p.length - off) :
    question_prelude p = .ok (off + 4) := by
  simp only [question_prelude, hq, hsk]
  rw [if_neg (by norm_num : ¬ (1 : Nat) ≠ 1), if_neg h12, if_neg h65,
    if_neg hoff, if_neg h4]

theorem min_ttl_ne_crash (p : List Nat) (a b c : Nat) (h : 6 ≤ p.length) :
    min_ttl p a b c ≠ .crash := by
  cases hpre : question_prelude p with
  | crash => exact absurd hpre (question_prelude_ne_crash p h)
  | err e => simp [min_ttl, hpre]
  | ok off1 =>
    obtain ⟨hl13, _, _, _⟩ := question_prelude_facts p off1 hpre
    have hp : p ≠ [] := by
      intro hc
      rw [hc] at hl13
      simp at hl13
    simp only [min_ttl, hpre, hdr16_ok p 6 (by omega), hdr16_ok p 8 (by omega),
      hdr16_ok p 10 (by omega)]
    split
    · rename_i hcr
      exact absurd hcr (traverse_rrs_ne_crash p (ttl_cb p)
        (fun s off hb => by rw [ttl_cb_ok p s off hb]; simp) hp _ _ _)
    · simp
    · split <;> simp

theorem add_edns_ne_crash (p : List Nat) (sz : Nat) (h : 12 ≤ p.length) :
    (add_edns_section p sz).2 ≠ .crash := by
  simp only [add_edns_section, hdr16_ok p 10 (by omega)]
  split
  · simp
  · split <;> simp

/-- `set_edns_max_payload_size`, described through the record skeleton of
the additional section: the result depends only on the list of OPT records
the additional-section walk encounters. -/
theorem set_edns_eq (p : List Nat) (sz off1 off2 off3 : Nat)
    (offs1 offs2 : List Nat)
    (h1 : question_prelude p = .ok off1)
    (h2 : rr_offsets p off1 ((val16 p 6 + val16 p 8) % 65536) =
      .ok (off2, offs1))
    (h3 : rr_offsets p off2 (val16 p 10) = .ok (off3, offs2)) :
    set_edns_max_payload_size p sz =
      match offs2.filter (fun u => val16 p u == 41) with
      | [] => add_edns_section p sz
      | [t] => (w2 p t sz, .ok ())
      | t :: _ :: _ => (w2 p t sz, .err .duplicateOpt) := by
  obtain ⟨hl13, _, _, _⟩ := question_prelude_facts p off1 h1
  simp only [set_edns_max_payload_size, h1, hdr16_ok p 6 (by omega),
    hdr16_ok p 8 (by omega), hdr16_ok p 10 (by omega),
    traverse_rrs_of_rr_offsets p (fun (s : Unit) _ => .ok s) (fun s _ => s)
      (fun s off hb => rfl) _ _ () off2 offs1 h2]
  rw [mut_walk_of_rr_offsets sz (val16 p 10) p off2 false off3 offs2 h3]
  cases hfil : offs2.filter (fun u => val16 p u == 41) with
  | nil => rfl
  | cons t rest =>
    cases rest with
    | nil => rfl
    | cons u rest2 => rfl

theorem add_edns_section_eq (p : List Nat) (sz : Nat) (h12 : 12 ≤ p.length)
    (hlen : p.length ≤ 65524) (har : val16 p 10 ≠ 65535) :
    add_edns_section p sz =
      ((p.set 10 (((val16 p 10 + 1) >>> 8) % 256)).set 11
          ((val16 p 10 + 1) % 256) ++
        [0, 0, 41, (sz >>> 8) % 256, sz % 256, 0, 0, 0, 0, 0, 0], .ok ()) := by
  simp only [add_edns_section, hdr16_ok p 10 (by omega)]
  rw [if_neg (by omega : ¬ (65535 - p.length < 11)), if_neg har,
    show ((41 : Nat) >>> 8) % 256 = 0 from by decide,
    show (41 : Nat) % 256 = 41 from by decide]

theorem set_edns_ne_crash (p : List Nat) (sz : Nat) (h : 6 ≤ p.length) :
    (set_edns_max_payload_size p sz).2 ≠ .crash := by
  cases hpre : question_prelude p with
  | crash => exact absurd hpre (question_prelude_ne_crash p h)
  | err e => simp [set_edns_max_payload_size, hpre]
  | ok off1 =>
    obtain ⟨hl13, _, _, _⟩ := question_prelude_facts p off1 hpre
    have hp : p ≠ [] := by
      intro hc
      rw [hc] at hl13
      simp at hl13
    simp only [set_edns_max_payload_size, hpre, hdr16_ok p 6 (by omega),
      hdr16_ok p 8 (by omega), hdr16_ok p 10 (by omega)]
    split
    · rename_i hcr
      exact absurd hcr (traverse_rrs_ne_crash p (fun (s : Unit) _ => .ok s)
        (fun s off hb => by simp) hp _ _ _)
    · simp
    · rename_i off2 u hdisc
      split
      · rename_i p2 hmut
        have hnc := mut_walk_ne_crash sz (val16 p 10) p off2 false hp
        rw [hmut] at hnc
        simp at hnc
      · simp
      · rename_i p2 o3 found hmut
        split
        · simp
        · have hlen2 : p2.length = p.length := by
            have hl := mut_walk_length sz p.length (val16 p 10) p off2 false
            rw [hmut] at hl
            exact hl
          exact add_edns_ne_crash p2 sz (by omega)

/-! ### Single-step facts about the name walker -/

theorem and_c0_eq (b : Nat) (h1 : 0xc0 ≤ b) (h2 : b < 256) :
    (b &&& 0xc0 == 0xc0) = true := by
  have hand : b &&& 0xc0 = 0xc0 := by
    interval_cases b <;> decide
  simp [hand]

theorem skip_name_zero (p : List Nat) (offset : Nat)
    (hb : p[offset]? = some 0) (hrem : offset + 2 ≤ p.length) :
    skip_name p offset = .ok (offset + 1, 0) := by
  rw [skip_name]
  rw [if_neg (by omega : ¬ (p.length = 0)),
    if_neg (by omega : ¬ (offset ≥ p.length - 1))]
  simp only [skip_name_loop, hb]
  rw [if_neg (by decide : ¬ (((0 : Nat) &&& 0xc0 == 0xc0) = true))]
  rw [if_neg (by decide : ¬ ((0 : Nat) > 0x3f))]
  rw [if_neg (by omega : ¬ ((0 : Nat) ≥ p.length - offset - 1))]
  rw [if_neg (by decide : ¬ ((0 : Nat) + 0 + 1 > 256))]
  rw [if_pos (by decide : (((0 : Nat) == 0) = true))]

theorem skip_name_pointer (p : List Nat) (offset b : Nat)
    (hb : p[offset]? = some b) (hbyte : b < 256) (hptr : 0xc0 ≤ b)
    (hrem : offset + 2 ≤ p.length) :
    skip_name p offset = .ok (offset + 2, 0) := by
  rw [skip_name]
  rw [if_neg (by omega : ¬ (p.length = 0)),
    if_neg (by omega : ¬ (offset ≥ p.length - 1))]
  simp only [skip_name_loop, hb]
  rw [if_pos (and_c0_eq b hptr hbyte)]
  rw [if_neg (by omega : ¬ (2 > p.length - offset))]

/-! ### Claims C3, C9, C10 — the name walker -/

/-- Claim C3 (amended: restricted to non-empty buffers).  For every
non-empty buffer and every starting offset, `skip_name` either succeeds
with an offset bounded by the buffer length, or returns one of the five
name-walker errors; it never aborts.  On the empty buffer the claim fails:
the source computes `packet_len - 1`, which underflows and aborts (see the
counterexample). -/
theorem C3_skip_name_bounds (p : List Nat) (offset : Nat) (hp : p ≠ []) :
    (∀ off' k, skip_name p offset = .ok (off', k) → off' ≤ p.length) ∧
    skip_name p offset ≠ .crash ∧
    (∀ e, skip_name p offset = .err e →
      e = .shortPacket ∨ e = .incompleteOffset ∨ e = .labelTooLong ∨
        e = .malformedName ∨ e = .nameTooLong) :=
  ⟨fun off' k h => skip_name_le p offset off' k h,
   skip_name_ne_crash p offset hp,
   fun e h => skip_name_err p offset e h⟩

/-- Claim C3, counterexample: on the empty buffer (a buffer/offset pair on
which the name is malformed) `skip_name` aborts instead of returning one of
the enumerated errors, because `packet_len - 1` underflows. -/
theorem C3_counterexample_empty_buffer :
    skip_name ([] : List Nat) 0 = .crash := by decide

/-- Claim C3, witness at the one-byte buffer `[0]`. -/
theorem C3_witness_short_name : skip_name [0] 0 ≠ .crash :=
  (C3_skip_name_bounds [0] 0 (by decide)).2.1

/-- Claim C9 (confirmed).  A byte with both top bits set (value in
`[0xc0, 0xff]`) at the start of a name, with at least 2 bytes remaining,
makes `skip_name` succeed advancing exactly 2 with label count 0 — no
constraint is placed on the second pointer byte or on the pointer's
target. -/
theorem C9_compression_pointer (p : List Nat) (offset b : Nat)
    (hb : p[offset]? = some b) (hbyte : b < 256) (hptr : 0xc0 ≤ b)
    (hrem : offset + 2 ≤ p.length) :
    skip_name p offset = .ok (offset + 2, 0) :=
  skip_name_pointer p offset b hb hbyte hptr hrem

/-- Claim C9, witness: pointer byte 0xc0 followed by an arbitrary byte. -/
theorem C9_witness_pointer : skip_name [192, 171] 0 = .ok (2, 0) :=
  C9_compression_pointer [192, 171] 0 192 (by decide) (by decide)
    (by decide) (by decide)

/-- Claim C10 (amended: the offset must have at least TWO remaining bytes,
`offset + 2 ≤ length`, not one).  Then a 0x00 byte at `offset` makes
`skip_name` succeed with `offset + 1` and label count 0.  With exactly one
remaining byte (`offset = length - 1`) the entry check
`offset >= packet_len - 1` fires first and `skip_name` fails with
`ShortPacket` even though the byte is 0x00 (see the counterexample). -/
theorem C10_zero_label (p : List Nat) (offset : Nat)
    (hb : p[offset]? = some 0) (hrem : offset + 2 ≤ p.length) :
    skip_name p offset = .ok (offset + 1, 0) :=
  skip_name_zero p offset hb hrem

/-- Claim C10, counterexample: buffer `[0]`, offset 0 — a valid index with
at least one remaining byte holding 0x00, yet `skip_name` returns
`ShortPacket` instead of the claimed success `(1, 0)`. -/
theorem C10_counterexample_last_byte :
    skip_name [0] 0 = .err .shortPacket ∧ skip_name [0] 0 ≠ .ok (1, 0) := by
  decide

/-- Claim C10, witness: root label with one byte after it. -/
theorem C10_witness_zero_label : skip_name [0, 5] 0 = .ok (1, 0) :=
  C10_zero_label [0, 5] 0 (by decide) (by decide)

/-! ### Claim C2 — no aborts -/

/-- Claim C2 (amended: thresholds added).  `rcode` and
`is_recoverable_error` read byte 3 and never abort once the buffer has at
least 4 bytes; `min_ttl` and `set_edns_max_payload_size` read header bytes
4–5 before any length check and never abort once the buffer has at least 6
bytes (a non-abort result is, by the `Res` trichotomy, a value or one of
the enumerated errors; the wrapping `u16` sum of the section counts does
not abort).  Below those thresholds the header reads are out of bounds and
the process aborts, refuting the original claim (see the
counterexample). -/
theorem C2_no_crash (p : List Nat) (a b c sz : Nat) :
    (4 ≤ p.length →
      rcode p ≠ .crash ∧ is_recoverable_error p ≠ .crash) ∧
    (6 ≤ p.length →
      min_ttl p a b c ≠ .crash ∧
        (set_edns_max_payload_size p sz).2 ≠ .crash) := by
  constructor
  · intro h
    have h3 : p[3]? = some p[3] := List.getElem?_eq_getElem (by omega)
    constructor
    · rw [rcode, h3]
      simp
    · rw [is_recoverable_error, rcode, h3]
      simp
  · intro h
    exact ⟨min_ttl_ne_crash p a b c h, set_edns_ne_crash p sz h⟩

/-- Claim C2, counterexample: `min_ttl` on a 5-byte buffer reads header
byte 5 (the question count, read before any length check) out of bounds
and aborts instead of returning a value or an enumerated error. -/
theorem C2_counterexample_short_buffer :
    min_ttl [0, 0, 0, 0, 0] 0 0 0 = .crash := by decide

/-- Claim C2, witness at the 6-byte all-zero buffer. -/
theorem C2_witness_min_buffers :
    rcode [0, 0, 0, 0, 0, 0] ≠ .crash ∧
    min_ttl [0, 0, 0, 0, 0, 0] 1 2 3 ≠ .crash :=
  ⟨((C2_no_crash [0, 0, 0, 0, 0, 0] 1 2 3 0).1 (by decide)).1,
   ((C2_no_crash [0, 0, 0, 0, 0, 0] 1 2 3 0).2 (by decide)).1⟩

/-! ### Claims C1 and C8 — the TTL resolver -/

/-- Claim C1 (amended: the record count, and hence the `total_records == 0`
test, uses the wrapping `u16` sum `(ancount + nscount + arcount) % 65536`,
not the mathematical sum).  For every buffer accepted by `min_ttl`
(question prelude succeeds, all records parse, the walk ends exactly at
the buffer end), the returned TTL is the running minimum clamped up to
`min_ttl`: the minimum starts at `failure_ttl` when the wrapped count is 0
and at `max_ttl` otherwise, and is folded with `Nat.min` over the 32-bit
TTL fields (header bytes 4–7) of exactly the records whose type is not
OPT (41). -/
theorem C1_resolve_cache_ttl_formula (p : List Nat) (a b c off1 off2 : Nat)
    (offs : List Nat)
    (h1 : question_prelude p = .ok off1)
    (h2 : rr_offsets p off1 ((val16 p 6 + val16 p 8 + val16 p 10) % 65536) =
      .ok (off2, offs))
    (h3 : off2 = p.length) :
    min_ttl p a b c =
      .ok (Nat.max a
        (((offs.filter fun u => !(val16 p u == 41)).map (ttl32 p)).foldl
          Nat.min
          (if (val16 p 6 + val16 p 8 + val16 p 10) % 65536 = 0 then c
            else b))) := by
  rw [min_ttl_eq p a b c off1 off2 offs h1 h2, if_pos h3, foldl_ttl_step]
  have hstart :
      (if (val16 p 6 + val16 p 8 + val16 p 10) % 65536 > 0 then b else c) =
      (if (val16 p 6 + val16 p 8 + val16 p 10) % 65536 = 0 then c else b) := by
    by_cases hx : (val16 p 6 + val16 p 8 + val16 p 10) % 65536 = 0
    · rw [if_neg (by omega), if_pos hx]
    · rw [if_pos (by omega), if_neg hx]
  rw [hstart]

/-- Claim C1, counterexample: `c1cx` has `ancount = nscount = 0x8000`, so
the mathematical sum of the section counts is 65,536 ≠ 0, and the claim as
stated prescribes a running minimum starting at `max_ttl = 100`, hence the
result 100.  The code's `u16` sum wraps to 0, so `min_ttl` walks no
records, starts at `failure_ttl = 7`, and returns 7. -/
theorem C1_counterexample_u16_wrap :
    min_ttl c1cx 0 100 7 = .ok 7 ∧
    val16 c1cx 6 + val16 c1cx 8 + val16 c1cx 10 ≠ 0 ∧ (7 : Nat) ≠ 100 := by
  refine ⟨by decide, by decide, by decide⟩

/-- Claim C1, witness: two records with TTLs 300 and 100,
`min_ttl = 50`, `max_ttl = 3600` give 100 (the spec's test vector). -/
theorem C1_witness_two_records : min_ttl c1wit 50 3600 0 = .ok 100 := by
  have h := C1_resolve_cache_ttl_formula c1wit 50 3600 0 17 39 [18, 29]
    (by decide) (by decide) (by decide)
  exact h.trans (by decide)

/-- Claim C8 (confirmed).  For every buffer whose validation prelude and
record walk both succeed, `min_ttl` fails with `TrailingGarbage` exactly
when the offset after the last record differs from the buffer length. -/
theorem C8_trailing_garbage_iff (p : List Nat) (a b c off1 off2 : Nat)
    (offs : List Nat)
    (h1 : question_prelude p = .ok off1)
    (h2 : rr_offsets p off1 ((val16 p 6 + val16 p 8 + val16 p 10) % 65536) =
      .ok (off2, offs)) :
    (min_ttl p a b c = .err .trailingGarbage ↔ off2 ≠ p.length) := by
  rw [min_ttl_eq p a b c off1 off2 offs h1 h2]
  by_cases h : off2 = p.length
  · rw [if_pos h]
    simp [h]
  · rw [if_neg h]
    simp [h]

/-- Claim C8, witness: a record-less response with one trailing byte fails
with `TrailingGarbage`. -/
theorem C8_witness_trailing_byte :
    min_ttl c8wit 5 3600 7 = .err .trailingGarbage :=
  (C8_trailing_garbage_iff c8wit 5 3600 7 17 17 [] (by decide)
    (by decide)).mpr (by decide)

/-! ### Claims C5, C6, C7 — the EDNS payload rewriter -/

theorem set_set_append_facts (p : List Nat) (hi lo a3 a4 : Nat)
    (h12 : 12 ≤ p.length) :
    ((p.set 10 hi).set 11 lo ++ [0, 0, 41, a3, a4, 0, 0, 0, 0, 0, 0]).length
        = p.length + 11 ∧
    ((p.set 10 hi).set 11 lo ++ [0, 0, 41, a3, a4, 0, 0, 0, 0, 0, 0])[10]?
        = some hi ∧
    ((p.set 10 hi).set 11 lo ++ [0, 0, 41, a3, a4, 0, 0, 0, 0, 0, 0])[11]?
        = some lo ∧
    ((p.set 10 hi).set 11 lo ++
        [0, 0, 41, a3, a4, 0, 0, 0, 0, 0, 0])[p.length + 3]? = some a3 ∧
    ((p.set 10 hi).set 11 lo ++
        [0, 0, 41, a3, a4, 0, 0, 0, 0, 0, 0])[p.length + 4]? = some a4 ∧
    (∀ i, i < p.length → i ≠ 10 → i ≠ 11 →
      ((p.set 10 hi).set 11 lo ++
        [0, 0, 41, a3, a4, 0, 0, 0, 0, 0, 0])[i]? = p[i]?) := by
  have hql : ((p.set 10 hi).set 11 lo).length = p.length := by simp
  refine ⟨?_, ?_, ?_, ?_, ?_, ?_⟩
  · simp
  · rw [List.getElem?_append_left (by rw [hql]; omega),
      List.getElem?_set_ne (by omega),
      List.getElem?_set_self (by omega)]
  · rw [List.getElem?_append_left (by rw [hql]; omega),
      List.getElem?_set_self (by simp; omega)]
  · rw [List.getElem?_append_right (by rw [hql]; omega)]
    have hidx : p.length + 3 - ((p.set 10 hi).set 11 lo).length = 3 := by
      rw [hql]
      omega
    rw [hidx]
    rfl
  · rw [List.getElem?_append_right (by rw [hql]; omega)]
    have hidx : p.length + 4 - ((p.set 10 hi).set 11 lo).length = 4 := by
      rw [hql]
      omega
    rw [hidx]
    rfl
  · intro i hlt h10 h11
    rw [List.getElem?_append_left (by rw [hql]; omega),
      List.getElem?_set_ne (by omega), List.getElem?_set_ne (by omega)]

/-- Claim C5 (confirmed).  When `set_edns_max_payload_size` accepts a
byte-bounded buffer whose additional section contains no OPT record and
succeeds, it appends exactly the 11 bytes
`[0 (root name), 0, 41 (type), hi(sz), lo(sz), 0, 0, 0, 0, 0, 0]`,
increments the 16-bit additional-record count (header bytes 10–11) by
exactly 1, stores `sz` big-endian in the payload field of the new record,
and changes no pre-existing byte other than header bytes 10 and 11. -/
theorem C5_append_opt_record (p : List Nat) (sz off1 off2 off3 : Nat)
    (offs1 offs2 : List Nat)
    (hbytes : ∀ b ∈ p, b < 256) (hsz : sz < 65536)
    (h1 : question_prelude p = .ok off1)
    (h2 : rr_offsets p off1 ((val16 p 6 + val16 p 8) % 65536) =
      .ok (off2, offs1))
    (h3 : rr_offsets p off2 (val16 p 10) = .ok (off3, offs2))
    (h4 : offs2.filter (fun u => val16 p u == 41) = [])
    (h5 : (set_edns_max_payload_size p sz).2 = .ok ()) :
    set_edns_max_payload_size p sz =
      ((p.set 10 (((val16 p 10 + 1) >>> 8) % 256)).set 11
          ((val16 p 10 + 1) % 256) ++
        [0, 0, 41, (sz >>> 8) % 256, sz % 256, 0, 0, 0, 0, 0, 0], .ok ()) ∧
    (set_edns_max_payload_size p sz).1.length = p.length + 11 ∧
    val16 (set_edns_max_payload_size p sz).1 10 = val16 p 10 + 1 ∧
    val16 (set_edns_max_payload_size p sz).1 (p.length + 3) = sz ∧
    (∀ i, i < p.length → i ≠ 10 → i ≠ 11 →
      (set_edns_max_payload_size p sz).1[i]? = p[i]?) := by
  obtain ⟨hl13, hl65, _, _⟩ := question_prelude_facts p off1 h1
  have heq : set_edns_max_payload_size p sz = add_edns_section p sz := by
    have hw := set_edns_eq p sz off1 off2 off3 offs1 offs2 h1 h2 h3
    rw [h4] at hw
    exact hw
  rw [heq] at h5
  have hsize : ¬ (65535 - p.length < 11) := by
    intro hcon
    rw [add_edns_section, if_pos hcon] at h5
    simp at h5
  have har : val16 p 10 ≠ 65535 := by
    intro hcon
    simp only [add_edns_section, hdr16_ok p 10 (by omega)] at h5
    rw [if_neg hsize, if_pos hcon] at h5
    simp at h5
  have hfull := heq.trans (add_edns_section_eq p sz (by omega) (by omega) har)
  have harlt : val16 p 10 + 1 < 65536 := by
    have := val16_lt p hbytes 10
    omega
  obtain ⟨f1, f2, f3, f4, f5, f6⟩ := set_set_append_facts p
    (((val16 p 10 + 1) >>> 8) % 256) ((val16 p 10 + 1) % 256)
    ((sz >>> 8) % 256) (sz % 256) (by omega)
  refine ⟨hfull, ?_, ?_, ?_, ?_⟩
  · rw [hfull]
    exact f1
  · rw [hfull, val16]
    simp only [f2, f3, Option.getD_some]
    exact val16_recompose (val16 p 10 + 1) harlt
  · rw [hfull, val16]
    simp only [f4, f5, Option.getD_some]
    exact val16_recompose sz hsz
  · intro i hlt h10 h11
    rw [hfull]
    exact f6 i hlt h10 h11

/-- Claim C5, witness: the record-less packet `w5pkt` with `sz = 512`. -/
theorem C5_witness_no_opt :
    (set_edns_max_payload_size w5pkt 512).2 = .ok () ∧
    (set_edns_max_payload_size w5pkt 512).1.length = w5pkt.length + 11 ∧
    val16 (set_edns_max_payload_size w5pkt 512).1 10 = val16 w5pkt 10 + 1 ∧
    val16 (set_edns_max_payload_size w5pkt 512).1 (w5pkt.length + 3) = 512 := by
  have h := C5_append_opt_record w5pkt 512 17 17 17 [] []
    (by decide) (by decide) (by decide) (by decide) (by decide)
    (by decide) (by decide)
  exact ⟨by decide, h.2.1, h.2.2.1, h.2.2.2.1⟩

/-- Claim C6 (confirmed).  When the additional section of an accepted
buffer contains exactly one OPT record, whose type field starts at `t`,
`set_edns_max_payload_size` succeeds, keeps the buffer length unchanged,
modifies only the 2 bytes `t+2` and `t+3` immediately after the type
field, and those two bytes afterwards hold `sz` big-endian. -/
theorem C6_rewrite_single_opt (p : List Nat) (sz t off1 off2 off3 : Nat)
    (offs1 offs2 : List Nat) (hsz : sz < 65536)
    (h1 : question_prelude p = .ok off1)
    (h2 : rr_offsets p off1 ((val16 p 6 + val16 p 8) % 65536) =
      .ok (off2, offs1))
    (h3 : rr_offsets p off2 (val16 p 10) = .ok (off3, offs2))
    (h4 : offs2.filter (fun u => val16 p u == 41) = [t]) :
    set_edns_max_payload_size p sz = (w2 p t sz, .ok ()) ∧
    (w2 p t sz).length = p.length ∧
    (∀ i, i ≠ t + 2 → i ≠ t + 3 → (w2 p t sz)[i]? = p[i]?) ∧
    val16 (w2 p t sz) (t + 2) = sz := by
  have ht : t ∈ offs2 := by
    have : t ∈ offs2.filter (fun u => val16 p u == 41) := by
      rw [h4]
      exact List.mem_singleton.mpr rfl
    exact List.mem_of_mem_filter this
  have hbound := ((rr_offsets_ge p (val16 p 10) off2 off3 offs2 h3).2 t ht).2
  have heq : set_edns_max_payload_size p sz = (w2 p t sz, .ok ()) := by
    have hw := set_edns_eq p sz off1 off2 off3 offs1 offs2 h1 h2 h3
    rw [h4] at hw
    exact hw
  refine ⟨heq, w2_length p t sz,
    fun i hi2 hi3 => w2_getElem_ne p t sz i hi2 hi3, ?_⟩
  rw [w2_val16 p t sz (by omega)]
  exact val16_recompose sz hsz

/-- Claim C6, witness: `w6pkt` holds one OPT record with type field at 18;
`sz = 1232` lands big-endian in bytes 20–21. -/
theorem C6_witness_one_opt :
    set_edns_max_payload_size w6pkt 1232 = (w2 w6pkt 18 1232, .ok ()) ∧
    val16 (w2 w6pkt 18 1232) 20 = 1232 := by
  have h := C6_rewrite_single_opt w6pkt 1232 18 17 17 28 [] [18]
    (by decide) (by decide) (by decide) (by decide) (by decide)
  exact ⟨h.1, h.2.2.2⟩

/-- Claim C7 (confirmed).  When the additional section of an accepted
buffer contains two or more OPT records, `set_edns_max_payload_size` fails
with `DuplicateOpt` at the second one; at that point the first OPT
record's payload field (bytes `t+2`, `t+3` after its type field at `t`)
has already been overwritten with `sz` big-endian, and the buffer has not
been grown. -/
theorem C7_duplicate_opt (p : List Nat) (sz t u off1 off2 off3 : Nat)
    (offs1 offs2 rest : List Nat)
    (h1 : question_prelude p = .ok off1)
    (h2 : rr_offsets p off1 ((val16 p 6 + val16 p 8) % 65536) =
      .ok (off2, offs1))
    (h3 : rr_offsets p off2 (val16 p 10) = .ok (off3, offs2))
    (h4 : offs2.filter (fun u2 => val16 p u2 == 41) = t :: u :: rest) :
    set_edns_max_payload_size p sz = (w2 p t sz, .err .duplicateOpt) ∧
    (w2 p t sz).length = p.length ∧
    (sz < 65536 → val16 (w2 p t sz) (t + 2) = sz) := by
  have ht : t ∈ offs2 := by
    have : t ∈ offs2.filter (fun u2 => val16 p u2 == 41) := by
      rw [h4]
      exact List.mem_cons_self t (u :: rest)
    exact List.mem_of_mem_filter this
  have hbound := ((rr_offsets_ge p (val16 p 10) off2 off3 offs2 h3).2 t ht).2
  have heq : set_edns_max_payload_size p sz =
      (w2 p t sz, .err .duplicateOpt) := by
    have hw := set_edns_eq p sz off1 off2 off3 offs1 offs2 h1 h2 h3
    rw [h4] at hw
    exact hw
  refine ⟨heq, w2_length p t sz, fun hsz => ?_⟩
  rw [w2_val16 p t sz (by omega)]
  exact val16_recompose sz hsz

/-- Claim C7, witness: `w7pkt` holds two OPT records (type fields at 18 and
29); the call fails with `DuplicateOpt` and byte pair 20–21 of the
returned buffer holds 1232 big-endian. -/
theorem C7_witness_two_opts :
    set_edns_max_payload_size w7pkt 1232 =
      (w2 w7pkt 18 1232, .err .duplicateOpt) ∧
    val16 (w2 w7pkt 18 1232) 20 = 1232 := by
  have h := C7_duplicate_opt w7pkt 1232 18 29 17 17 39 [] [18, 29] []
    (by decide) (by decide) (by decide) (by decide)
  exact ⟨h.1, h.2.2 (by decide)⟩

/-! ### Claim C4 — the append size bound -/

/-- Claim C4 (amended: the append fails with `PacketTooLarge` exactly when
the buffer already has at least 65,525 bytes, i.e. when the resulting
buffer would strictly exceed 65,535 bytes; at 65,524 bytes the append
succeeds and the buffer reaches exactly 65,535 bytes).  The source test is
`DNS_MAX_PACKET_SIZE - packet.len() < opt_rr.len()`, i.e.
`65535 - len < 11`, which holds iff `len ≥ 65525`, not `len ≥ 65524` as
the claim states (see the counterexample). -/
theorem C4_append_size_bound (p : List Nat) (sz : Nat) :
    (65525 ≤ p.length → add_edns_section p sz = (p, .err .largePacket)) ∧
    (12 ≤ p.length → p.length ≤ 65524 →
      (add_edns_section p sz).2 ≠ .err .largePacket) := by
  constructor
  · intro h
    rw [add_edns_section, if_pos (by omega)]
  · intro h12 h24
    simp only [add_edns_section, hdr16_ok p 10 (by omega)]
    rw [if_neg (by omega)]
    split <;> simp

/-- Claim C4, counterexample: `c4buf` is a 65,524-byte buffer with no OPT
record that `set_edns_max_payload_size` accepts; the claim says the append
step must fail with `PacketTooLarge` (length ≥ 65,524), but the call
succeeds and extends the buffer to exactly 65,535 bytes. -/
theorem C4_counterexample_65524 :
    c4buf.length = 65524 ∧
    (set_edns_max_payload_size c4buf 4096).2 = .ok () ∧
    (set_edns_max_payload_size c4buf 4096).1.length = 65535 := by
  have hlen : c4buf.length = 65524 := by
    rw [c4buf, List.length_append, List.length_replicate]
    norm_num [c4hdr]
  have hidx : ∀ i : Nat, i < 17 → c4buf[i]? = c4hdr[i]? := by
    intro i hi
    rw [c4buf, List.getElem?_append_left (by simp [c4hdr]; omega)]
  have e4 : c4buf[4]? = some 0 := by rw [hidx 4 (by omega)]; decide
  have e5 : c4buf[4 + 1]? = some 1 := by
    rw [show (4 + 1 : Nat) = 5 from rfl, hidx 5 (by omega)]; decide
  have e6 : c4buf[6]? = some 0 := by rw [hidx 6 (by omega)]; decide
  have e7 : c4buf[6 + 1]? = some 0 := by
    rw [show (6 + 1 : Nat) = 7 from rfl, hidx 7 (by omega)]; decide
  have e8 : c4buf[8]? = some 0 := by rw [hidx 8 (by omega)]; decide
  have e9 : c4buf[8 + 1]? = some 0 := by
    rw [show (8 + 1 : Nat) = 9 from rfl, hidx 9 (by omega)]; decide
  have e10 : c4buf[10]? = some 0 := by rw [hidx 10 (by omega)]; decide
  have e11 : c4buf[10 + 1]? = some 0 := by
    rw [show (10 + 1 : Nat) = 11 from rfl, hidx 11 (by omega)]; decide
  have e12 : c4buf[12]? = some 0 := by rw [hidx 12 (by omega)]; decide
  have hv6 : val16 c4buf 6 = 0 := by
    rw [val16, e6, e7]
    decide
  have hv8 : val16 c4buf 8 = 0 := by
    rw [val16, e8, e9]
    decide
  have hv10 : val16 c4buf 10 = 0 := by
    rw [val16, e10, e11]
    decide
  have hq : hdr16 c4buf 4 = .ok 1 := by
    rw [hdr16]
    simp only [e4, e5]
    decide
  have hsk : skip_name c4buf 12 = .ok (13, 0) :=
    skip_name_zero c4buf 12 e12 (by omega)
  have hpre : question_prelude c4buf = .ok 17 := by
    have h17 : (17 : Nat) = 13 + 4 := by norm_num
    rw [h17]
    exact question_prelude_eq c4buf 13 hq (by omega) (by omega) hsk
      (by omega) (by omega)
  have h2 : rr_offsets c4buf 17 ((val16 c4buf 6 + val16 c4buf 8) % 65536) =
      .ok (17, []) := by
    rw [hv6, hv8]
    norm_num [rr_offsets]
  have h3 : rr_offsets c4buf 17 (val16 c4buf 10) = .ok (17, []) := by
    rw [hv10]
    simp only [rr_offsets]
  have heq : set_edns_max_payload_size c4buf 4096 =
      add_edns_section c4buf 4096 := by
    have hw := set_edns_eq c4buf 4096 17 17 17 [] [] hpre h2 h3
    exact hw
  have hadd := add_edns_section_eq c4buf 4096 (by omega) (by omega)
    (by rw [hv10]; omega)
  refine ⟨hlen, ?_, ?_⟩
  · rw [heq, hadd]
  · rw [heq, hadd]
    rw [show (((c4buf.set 10 (((val16 c4buf 10 + 1) >>> 8) % 256)).set 11
        ((val16 c4buf 10 + 1) % 256) ++
        [0, 0, 41, (4096 >>> 8) % 256, 4096 % 256, 0, 0, 0, 0, 0, 0],
        Res.ok ()) : List Nat × Res Unit).1 =
      (c4buf.set 10 (((val16 c4buf 10 + 1) >>> 8) % 256)).set 11
        ((val16 c4buf 10 + 1) % 256) ++
        [0, 0, 41, (4096 >>> 8) % 256, 4096 % 256, 0, 0, 0, 0, 0, 0] from rfl]
    rw [List.length_append, List.length_set, List.length_set, hlen]
    norm_num

/-- Claim C4, witness: at 65,525 bytes the append does fail with
`PacketTooLarge` and the buffer is returned unchanged. -/
theorem C4_witness_65525 :
    add_edns_section (List.replicate 65525 0) 4096 =
      (List.replicate 65525 0, .err .largePacket) :=
  (C4_append_size_bound (List.replicate 65525 0) 4096).1
    (by rw [List.length_replicate])
